import Mathlib

/-!
Verification development for a chat-operated container-control bot
(single source file `main.py`).  Python strings are modelled as lists of
characters (`PyStr`), Python lists as Lean lists, machine integers as `Nat`,
and fallible runtime calls as `Except`/`Option` values.  Every definition is a
shallow embedding of the corresponding Python function; comments reference the
Python names.
-/

set_option maxRecDepth 100000

namespace ContainerBot

/-- Python strings are modelled as lists of Unicode characters. -/
abbrev PyStr := List Char

/-- Embed a Lean string literal into the character-list model. -/
def pys (s : String) : PyStr := s.data

/-- Python `str.split(sep)` with a one-character separator: splits at every
occurrence of `sep`, keeping empty pieces; `"".split(sep) == ['']`. -/
def pySplitOn (sep : Char) : PyStr → List PyStr
  | [] => [[]]
  | c :: cs =>
    match pySplitOn sep cs with
    | [] => [[]]
    | g :: gs => if c = sep then [] :: g :: gs else (c :: g) :: gs

/-- The ASCII whitespace characters stripped by Python `str.strip()`. -/
def isPySpace (c : Char) : Bool :=
  c == ' ' || c == '\t' || c == '\n' || c == '\r' || c == '\x0b' || c == '\x0c'

/-- Python `str.strip()`: remove leading and trailing whitespace. -/
def pyStrip (s : PyStr) : PyStr :=
  ((s.dropWhile isPySpace).reverse.dropWhile isPySpace).reverse

/-- Python `lst[-n:]`.  Note the quirk the source inherits: `lst[-0:]` is the
whole list, not the empty list. -/
def pyTailSlice (l : List PyStr) (n : Nat) : List PyStr :=
  if n = 0 then l else l.drop (l.length - n)

/-- The opening of a Discord code fence, `"```\n"`, as used by `format_logs`. -/
def fenceOpen : PyStr := pys "```\n"

/-- The closing of a Discord code fence, `"```"`. -/
def fenceClose : PyStr := pys "```"

/-- The reply `format_logs` returns for empty log text. -/
def noLogsMsg : PyStr := pys "No logs available."

/-- `main.py` lines 54-57: strip the log text, split it on newlines and keep
only the last `lines` lines (`log_lines[-lines:]`, only applied when the list
is longer than `lines`). -/
def retainedLines (logs : PyStr) (lines : Nat) : List PyStr :=
  let ls := pySplitOn '\n' (pyStrip logs)
  if ls.length > lines then pyTailSlice ls lines else ls

/-- The chunking loop of `format_logs` (`main.py` lines 60-75): state is the
list of finished chunks and the chunk under construction (`current_chunk`). -/
def flLoop : List PyStr → List PyStr → PyStr → List PyStr
  | [], chunks, cur => if cur ≠ fenceOpen then chunks ++ [cur ++ fenceClose] else chunks
  | line :: rest, chunks, cur =>
    if cur.length + line.length + 10 > 1990 then
      flLoop rest (chunks ++ [cur ++ fenceClose]) ((fenceOpen ++ line) ++ pys "\n")
    else
      flLoop rest chunks ((cur ++ line) ++ pys "\n")

/-- `format_logs(logs, lines=50)` from `main.py` lines 49-76. -/
def format_logs (logs : PyStr) (lines : Nat) : List PyStr :=
  if logs = [] then [noLogsMsg]
  else flLoop (retainedLines logs lines) [] fenceOpen

/-- A partially built chunk holding exactly the whole lines of `g`:
`"```\n" ++ line₀ ++ "\n" ++ line₁ ++ "\n" ++ ...`. -/
def openBlock (g : List PyStr) : PyStr :=
  fenceOpen ++ (g.map (fun l => l ++ pys "\n")).flatten

/-- A finished chunk holding exactly the whole lines of `g`. -/
def renderGroup (g : List PyStr) : PyStr :=
  fenceOpen ++ (g.map (fun l => l ++ pys "\n")).flatten ++ fenceClose

theorem openBlock_nil : openBlock [] = fenceOpen := by
  simp [openBlock]

theorem openBlock_ne_fenceOpen (g : List PyStr) (hg : g ≠ []) :
    openBlock g ≠ fenceOpen := by
  cases g with
  | nil => exact absurd rfl hg
  | cons h t =>
    intro hEq
    have hlen := congrArg List.length hEq
    simp [openBlock, fenceOpen, pys, List.length_flatten] at hlen

theorem openBlock_append (g : List PyStr) (line : PyStr) :
    (openBlock g ++ line) ++ pys "\n" = openBlock (g ++ [line]) := by
  simp [openBlock, List.append_assoc]

/-- Every run of `flLoop` starting from a chunk that holds whole lines `g`
produces the already finished chunks followed by rendered groups of whole
lines, and those groups concatenate to `g` followed by the remaining lines. -/
theorem flLoop_spec (ls : List PyStr) : ∀ (chunks : List PyStr) (g : List PyStr),
    ∃ groups : List (List PyStr),
      flLoop ls chunks (openBlock g) = chunks ++ groups.map renderGroup ∧
      groups.flatten = g ++ ls := by
  induction ls with
  | nil =>
    intro chunks g
    by_cases hg : g = []
    · subst hg
      refine ⟨[], ?_, by simp⟩
      simp [flLoop, openBlock_nil]
    · refine ⟨[g], ?_, by simp⟩
      have hne := openBlock_ne_fenceOpen g hg
      rw [flLoop, if_pos hne]
      simp [renderGroup, openBlock, List.append_assoc]
  | cons line rest ih =>
    intro chunks g
    by_cases hc : (openBlock g).length + line.length + 10 > 1990
    · have h1 : flLoop (line :: rest) chunks (openBlock g)
          = flLoop rest (chunks ++ [openBlock g ++ fenceClose])
              ((fenceOpen ++ line) ++ pys "\n") := by
        simp [flLoop, hc]
      have h2 : (fenceOpen ++ line) ++ pys "\n" = openBlock [line] := by
        simp [openBlock, List.append_assoc]
      obtain ⟨groups', e1, e2⟩ := ih (chunks ++ [openBlock g ++ fenceClose]) [line]
      refine ⟨g :: groups', ?_, by simp [e2]⟩
      rw [h1, h2, e1]
      simp [renderGroup, openBlock, List.append_assoc]
    · have h1 : flLoop (line :: rest) chunks (openBlock g)
          = flLoop rest chunks ((openBlock g ++ line) ++ pys "\n") := by
        simp [flLoop, hc]
      obtain ⟨groups', e1, e2⟩ := ih chunks (g ++ [line])
      refine ⟨groups', ?_, by simp [e2]⟩
      rw [h1, openBlock_append, e1]

/-- Claim C5: `format_logs` never splits a log line across two chunks — every
chunk is a code fence around a consecutive group of whole lines — and the
groups concatenate to exactly the retained last-`lines` log lines, in their
original order, each appearing exactly once. -/
theorem C5_format_logs_whole_lines (logs : PyStr) (lines : Nat) (h : logs ≠ []) :
    ∃ groups : List (List PyStr),
      format_logs logs lines = groups.map renderGroup ∧
      groups.flatten = retainedLines logs lines := by
  obtain ⟨groups, e1, e2⟩ := flLoop_spec (retainedLines logs lines) [] []
  rw [openBlock_nil] at e1
  refine ⟨groups, ?_, by simpa using e2⟩
  rw [format_logs, if_neg h, e1]
  simp

/-- Witness for C5 at the concrete log text `"a\nb"` with `lines = 5`. -/
theorem C5_format_logs_whole_lines_witness :
    (pys "a\nb" ≠ ([] : PyStr)) ∧
    ∃ groups : List (List PyStr),
      format_logs (pys "a\nb") 5 = groups.map renderGroup ∧
      groups.flatten = retainedLines (pys "a\nb") 5 :=
  ⟨by decide, C5_format_logs_whole_lines (pys "a\nb") 5 (by decide)⟩

/-- Claim C10: empty log text yields exactly the one-element list
`["No logs available."]`, a plain message with no code fence. -/
theorem C10_format_logs_empty (lines : Nat) :
    format_logs [] lines = [pys "No logs available."] := by
  simp [format_logs, noLogsMsg]

theorem pySplitOn_no_sep (sep : Char) : ∀ l : PyStr, sep ∉ l → pySplitOn sep l = [l] := by
  intro l
  induction l with
  | nil => intro _; rfl
  | cons c cs ih =>
    intro h
    have hc : c ≠ sep := fun hEq => h (hEq ▸ List.mem_cons_self c cs)
    have hcs : sep ∉ cs := fun hmem => h (List.mem_cons_of_mem c hmem)
    rw [pySplitOn, ih hcs]
    simp [hc]

theorem dropWhile_isPySpace_replicate_a (n : Nat) :
    List.dropWhile isPySpace (List.replicate n 'a') = List.replicate n 'a' := by
  cases n with
  | zero => rfl
  | succ m => simp [List.replicate_succ, List.dropWhile_cons, isPySpace]

theorem pyStrip_replicate_a (n : Nat) :
    pyStrip (List.replicate n 'a') = List.replicate n 'a' := by
  rw [pyStrip, dropWhile_isPySpace_replicate_a, List.reverse_replicate,
    dropWhile_isPySpace_replicate_a, List.reverse_replicate]

/-- Claim C4 (code evaluation): a single log line of `n ≥ 1992` characters —
in particular any line longer than the 2000-character ceiling — makes the
code return a junk chunk of 7 characters followed by a chunk of `n + 8 ≥
2000` characters, over Discord's per-message ceiling, contradicting the
chunk-size bound stated by the spec and by the function's own docstring
("max 2000 caratteri per messaggio"). -/
theorem C4_format_logs_oversized_line (n : Nat) (hn : 1992 ≤ n) :
    (format_logs (List.replicate n 'a') 50).map List.length = [7, n + 8] := by
  have h4 : fenceOpen.length = 4 := by decide
  have h3 : fenceClose.length = 3 := by decide
  have h1 : (pys "\n").length = 1 := by decide
  have hline : (List.replicate n 'a').length = n := List.length_replicate n 'a'
  have hret : retainedLines (List.replicate n 'a') 50 = [List.replicate n 'a'] := by
    rw [retainedLines, pyStrip_replicate_a,
      pySplitOn_no_sep '\n' _ (by simp [List.mem_replicate])]
    rw [if_neg (by simp)]
  have hne : List.replicate n 'a' ≠ ([] : PyStr) := by
    intro hEq
    have := congrArg List.length hEq
    rw [hline] at this
    simp at this
    omega
  have hne2 : (fenceOpen ++ List.replicate n 'a') ++ pys "\n" ≠ fenceOpen := by
    intro hEq
    have hlen := congrArg List.length hEq
    simp only [List.length_append, h4, h1, hline] at hlen
    omega
  rw [format_logs, if_neg hne, hret, flLoop,
    if_pos (by rw [h4, hline]; omega), flLoop, if_pos hne2]
  simp only [List.nil_append, List.cons_append, List.map_cons, List.map_nil,
    List.length_append, List.length_replicate, h4, h3, h1, List.cons.injEq, and_true,
    true_and]
  omega

/-- Witness for C4 at the concrete oversized line length 2001. -/
theorem C4_format_logs_oversized_line_witness :
    1992 ≤ 2001 ∧
    (format_logs (List.replicate 2001 'a') 50).map List.length = [7, 2001 + 8] :=
  ⟨by norm_num, C4_format_logs_oversized_line 2001 (by norm_num)⟩


/-! ## Configuration and authorization (`main.py` lines 17-40) -/

/-- `AUTHORIZED_USERS = os.getenv('AUTHORIZED_USERS', '').split(',')`
(`main.py` line 20), as a function of the raw environment value (the empty
list standing for an unset variable as well, since `os.getenv` defaults to
`''`). -/
def AUTHORIZED_USERS_of (env : PyStr) : List PyStr := pySplitOn ',' env

/-- `MONITORED_CONTAINERS` parsing (`main.py` lines 22-27): the empty value
gives `[]`, otherwise split on commas, strip each entry, keep the entries
that strip to something non-empty. -/
def MONITORED_of (env : PyStr) : List PyStr :=
  if env = [] then []
  else ((pySplitOn ',' env).map pyStrip).filter (fun c => decide (c ≠ []))

/-- The environment-derived configuration of `main.py` lines 17-27:
`CHANNEL_ID` (0 = unrestricted) and the raw `AUTHORIZED_USERS` and
`MONITORED_CONTAINERS` values. -/
structure Config where
  authorizedEnv : PyStr
  channelId : Nat
  monitoredEnv : PyStr

def Config.authorizedUsers (cfg : Config) : List PyStr :=
  AUTHORIZED_USERS_of cfg.authorizedEnv

def Config.monitored (cfg : Config) : List PyStr :=
  MONITORED_of cfg.monitoredEnv

/-- `is_authorized(user_id)` (`main.py` lines 38-40):
`str(user_id) in AUTHORIZED_USERS or not AUTHORIZED_USERS`. -/
def is_authorized (cfg : Config) (userId : Nat) : Bool :=
  cfg.authorizedUsers.contains (pys (toString userId)) || cfg.authorizedUsers.isEmpty

/-- Claim C1 (code evaluation): with `AUTHORIZED_USERS` unset or set to the
empty string, `''.split(',')` is `['']` — a non-empty list — so
`is_authorized` evaluates to `false` for the caller id 12345: every real
caller is denied, not allowed.  The `or not AUTHORIZED_USERS` fallback in the
source is unreachable. -/
theorem C1_empty_env_denies_everyone :
    AUTHORIZED_USERS_of [] = [[]] ∧
    is_authorized { authorizedEnv := [], channelId := 0, monitoredEnv := [] } 12345 = false := by
  constructor
  · rfl
  · decide

/-! ## The runtime world (`main.py` lines 30-47) -/

/-- A container as seen through the runtime client.  `fetchLogs n` models
`container.logs(tail=n, timestamps=True).decode('utf-8')`, which may raise
(`Except.error` carries `str(e)`); `statusAfterRestart` models the status
observed by `container.reload()` after `container.restart()` and the
3-second grace sleep. -/
structure DContainer where
  name : PyStr
  status : PyStr
  statusAfterRestart : PyStr
  created : PyStr
  fetchLogs : Nat → Except PyStr PyStr

/-- The runtime state: the containers visible to `docker_client`. -/
structure World where
  containers : List DContainer

/-- `get_container_by_name(name)` (`main.py` lines 42-47): lookup by name,
`None` (here `none`) when `docker.errors.NotFound` is raised. -/
def get_container_by_name (w : World) (name : PyStr) : Option DContainer :=
  w.containers.find? (fun c => decide (c.name = name))

/-! ## The event bridge (`main.py` lines 78-134) -/

/-- A runtime event as decoded from `docker_client.events(decode=True)`:
`Type`, `Action`, `Actor.Attributes.name` (an absent name attribute is
`none`) and `time`. -/
structure Event where
  type : PyStr
  action : PyStr
  actorName : Option PyStr
  time : Nat
deriving DecidableEq

/-- `event['Actor']['Attributes'].get('name', 'unknown')` (`main.py` line 103). -/
def eventContainerName (e : Event) : PyStr := e.actorName.getD (pys "unknown")

/-- Rendering of `datetime.fromtimestamp(event['time']).strftime(...)`
(`main.py` line 109), abstracted to a decimal rendering of the timestamp; no
claim inspects the exact text. -/
def fmtTime (t : Nat) : PyStr := pys (toString t)

/-- The notification line sent for a surviving event (`main.py` line 111). -/
def notifText (e : Event) : PyStr :=
  ((((pys "🛠️ **Container Event**: `" ++ eventContainerName e) ++ pys "` ")
    ++ e.action) ++ pys " at ") ++ fmtTime e.time

/-- The notice sent when a dead container can no longer be resolved for its
trailing logs (`main.py` line 126). -/
def notFoundLogsText (name : PyStr) : PyStr :=
  (pys "❌ Container '" ++ name) ++ pys "' not found for logs."

/-- State of the event bridge: the `CONTAINER_EVENTS_ENABLED` global, the
`event_queue` contents, the events already forwarded as notifications, and
the texts sent to the output channel, in order. -/
structure BState where
  toggle : Bool
  queue : List Event
  sent : List Event
  msgs : List PyStr
deriving DecidableEq

/-- One stream event observed by `docker_event_thread` (`main.py` lines
85-87): enqueue iff the toggle is on and the event type is `container`.  The
unbounded `queue.Queue.put` neither blocks nor drops. -/
def arriveStep (s : BState) (e : Event) : BState :=
  if s.toggle = true ∧ e.type = pys "container" then { s with queue := s.queue ++ [e] }
  else s

/-- The flip of the `CONTAINER_EVENTS_ENABLED` global performed by an
authorized `$toggle_notifications` (`main.py` line 196). -/
def toggleStep (s : BState) : BState := { s with toggle := !s.toggle }

/-- One iteration of `container_event_worker`'s loop (`main.py` lines
97-134): dequeue with `get_nowait` (a no-op here when the queue is empty,
where the worker sleeps 0.5 s), skip events failing the monitored-set or
action filter, send the notification, and on `die` send the trailing logs of
the container or the not-found notice.  A fault raised while fetching the
logs is caught by the enclosing `try`, ending only this iteration. -/
def dequeueStep (mon : List PyStr) (w : World) (s : BState) : BState :=
  match s.queue with
  | [] => s
  | e :: rest =>
    let s1 : BState := { s with queue := rest }
    if mon ≠ [] ∧ eventContainerName e ∉ mon then s1
    else if ¬ (e.action = pys "start" ∨ e.action = pys "die") then s1
    else
      let s2 : BState :=
        { s1 with sent := s1.sent ++ [e], msgs := s1.msgs ++ [notifText e] }
      if e.action = pys "die" then
        match get_container_by_name w (eventContainerName e) with
        | some c =>
          match c.fetchLogs 10 with
          | .ok logs => { s2 with msgs := s2.msgs ++ format_logs logs 10 }
          | .error _ => s2
        | none =>
          { s2 with msgs := s2.msgs ++ [notFoundLogsText (eventContainerName e)] }
      else s2

/-- Interleaved operations on the bridge state: a stream event arriving at
the reader thread, an authorized toggle command, one worker iteration. -/
inductive BOp where
  | arrive (e : Event)
  | toggleCmd
  | dequeue
deriving DecidableEq

/-- Run a sequence of interleaved bridge operations. -/
def runB (mon : List PyStr) (w : World) : BState → List BOp → BState
  | s, [] => s
  | s, op :: ops =>
    runB mon w
      (match op with
       | .arrive e => arriveStep s e
       | .toggleCmd => toggleStep s
       | .dequeue => dequeueStep mon w s) ops

/-- The startup state: toggle as configured by `CONTAINER_EVENTS_ENABLED`,
empty queue, nothing sent. -/
def initB (enabledEnv : Bool) : BState :=
  { toggle := enabledEnv, queue := [], sent := [], msgs := [] }

/-- An empty runtime, used in concrete traces. -/
def emptyWorld : World := { containers := [] }

/-- A concrete `container`/`start` event for the container `web`. -/
def evWebStart : Event :=
  { type := pys "container", action := pys "start"
    actorName := some (pys "web"), time := 0 }

/-- Claim C2 (counterexample): with notifications enabled an event is
enqueued; the toggle is then switched off; a later worker iteration still
forwards the event although the toggle is false at the moment of dequeue.
The toggle is consulted at enqueue time (`main.py` line 86), not at dequeue. -/
theorem C2_forward_despite_toggle_off :
    (runB [] emptyWorld (initB true) [BOp.arrive evWebStart, BOp.toggleCmd]).toggle = false ∧
    (dequeueStep [] emptyWorld
        (runB [] emptyWorld (initB true) [BOp.arrive evWebStart, BOp.toggleCmd])).sent
      = [evWebStart] := by
  constructor
  · decide
  · decide

/-- Claim C2 (amended): the toggle is consulted by the stream-reader thread
at enqueue time, not by the forwarding worker at dequeue: an event arriving
while the toggle is off is dropped at once and never buffered or replayed,
and the worker's dequeue/forward decision is independent of the toggle's
current value. -/
theorem C2_toggle_checked_at_enqueue (s : BState) (e : Event) (mon : List PyStr)
    (w : World) (b : Bool) (hoff : s.toggle = false) :
    arriveStep s e = s ∧
    dequeueStep mon w { s with toggle := b }
      = { dequeueStep mon w s with toggle := b } := by
  constructor
  · simp [arriveStep, hoff]
  · rcases s with ⟨tog, q, sent0, msgs0⟩
    cases q with
    | nil => rfl
    | cons e0 rest =>
      by_cases h1 : mon ≠ [] ∧ eventContainerName e0 ∉ mon
      · simp [dequeueStep, h1]
      · by_cases h2 : ¬ (e0.action = pys "start" ∨ e0.action = pys "die")
        · simp [dequeueStep, h1, h2]
        · by_cases h3 : e0.action = pys "die"
          · cases hc : get_container_by_name w (eventContainerName e0) with
            | none => simp [dequeueStep, h1, h2, h3, hc]
            | some c =>
              cases hl : c.fetchLogs 10 with
              | ok logs => simp [dequeueStep, h1, h2, h3, hc, hl]
              | error err => simp [dequeueStep, h1, h2, h3, hc, hl]
          · have h4 : e0.action = pys "start" := by
              rcases not_not.mp h2 with h | h
              · exact h
              · exact absurd h h3
            simp [dequeueStep, h1, h2, h3, h4,
              show pys "start" ≠ pys "die" from by decide]

/-- Witness for the amended C2 at a concrete off state. -/
theorem C2_toggle_checked_at_enqueue_witness :
    (initB false).toggle = false ∧
    (arriveStep (initB false) evWebStart = initB false ∧
      dequeueStep [] emptyWorld { initB false with toggle := true }
        = { dequeueStep [] emptyWorld (initB false) with toggle := true }) :=
  ⟨rfl, C2_toggle_checked_at_enqueue (initB false) evWebStart [] emptyWorld true rfl⟩

theorem runB_arrive_replicate (mon : List PyStr) (w : World) (n : Nat) :
    ∀ s : BState, s.toggle = true →
      (runB mon w s (List.replicate n (BOp.arrive evWebStart))).queue.length
        = s.queue.length + n := by
  induction n with
  | zero => intro s _; simp [runB]
  | succ m ih =>
    intro s hs
    rw [List.replicate_succ]
    have harr : arriveStep s evWebStart = { s with queue := s.queue ++ [evWebStart] } := by
      rw [arriveStep, if_pos ⟨hs, rfl⟩]
    simp only [runB, harr]
    rw [ih _ (by simp [hs])]
    simp
    omega

/-- Claim C3 (counterexample): the relay queue is `queue.Queue()` with no
`maxsize` — no fixed capacity bounds the number of queued events over the
reachable states: whatever capacity is proposed, enough arrivals while
notifications are enabled exceed it. -/
theorem C3_no_fixed_capacity :
    ¬ ∃ cap : Nat, ∀ ops : List BOp,
        (runB [] emptyWorld (initB true) ops).queue.length ≤ cap := by
  rintro ⟨cap, h⟩
  have h1 := runB_arrive_replicate [] emptyWorld (cap + 1) (initB true) rfl
  have h2 := h (List.replicate (cap + 1) (BOp.arrive evWebStart))
  rw [h1] at h2
  simp [initB] at h2

/-- Claim C3 (amended): the hand-off is non-blocking but unbounded: the
producer's enqueue always completes immediately and the consumer polls with
`get_nowait`, but for every `n` the trace of `n` stream arrivals reaches a
state holding exactly `n` events, so no fixed capacity exists. -/
theorem C3_queue_unbounded (n : Nat) :
    (runB [] emptyWorld (initB true)
        (List.replicate n (BOp.arrive evWebStart))).queue.length = n := by
  have := runB_arrive_replicate [] emptyWorld n (initB true) rfl
  simpa [initB] using this


/-- Bool form of the worker-side filter of `container_event_worker`
(`main.py` lines 104-108): monitored-set check, then action check. -/
def workerPass (mon : List PyStr) (e : Event) : Bool :=
  (decide (mon = []) || decide (eventContainerName e ∈ mon)) &&
    (decide (e.action = pys "start") || decide (e.action = pys "die"))

/-- Bool form of the reader-thread filter (`main.py` line 86), with the
toggle held on. -/
def threadPass (e : Event) : Bool := decide (e.type = pys "container")

/-- The filter the claim describes: container type, start-or-die action,
monitored subject (or no monitored set). -/
def bridgePass (mon : List PyStr) (e : Event) : Bool :=
  decide (e.type = pys "container") &&
    (decide (e.action = pys "start") || decide (e.action = pys "die")) &&
    (decide (mon = []) || decide (eventContainerName e ∈ mon))

theorem dequeueStep_queue (mon : List PyStr) (w : World) (s : BState) :
    (dequeueStep mon w s).queue = s.queue.tail := by
  rcases s with ⟨tog, q, sent0, msgs0⟩
  cases q with
  | nil => rfl
  | cons e0 rest =>
    by_cases h1 : mon ≠ [] ∧ eventContainerName e0 ∉ mon
    · simp [dequeueStep, h1]
    · by_cases h2 : ¬ (e0.action = pys "start" ∨ e0.action = pys "die")
      · simp [dequeueStep, h1, h2]
      · by_cases h3 : e0.action = pys "die"
        · cases hc : get_container_by_name w (eventContainerName e0) with
          | none => simp [dequeueStep, h1, h2, h3, hc]
          | some c =>
            cases hl : c.fetchLogs 10 with
            | ok logs => simp [dequeueStep, h1, h2, h3, hc, hl]
            | error err => simp [dequeueStep, h1, h2, h3, hc, hl]
        · have h4 : e0.action = pys "start" := by
            rcases not_not.mp h2 with h | h
            · exact h
            · exact absurd h h3
          simp [dequeueStep, h1, h2, h3, h4,
            show pys "start" ≠ pys "die" from by decide]

theorem dequeueStep_sent (mon : List PyStr) (w : World) (s : BState)
    (e : Event) (rest : List Event) (hq : s.queue = e :: rest) :
    (dequeueStep mon w s).sent
      = s.sent ++ (if workerPass mon e then [e] else []) := by
  rcases s with ⟨tog, q, sent0, msgs0⟩
  simp only at hq
  subst hq
  by_cases h1 : mon ≠ [] ∧ eventContainerName e ∉ mon
  · have hw : workerPass mon e = false := by
      simp only [workerPass, Bool.and_eq_false_iff, Bool.or_eq_false_iff]
      left
      constructor
      · simpa using h1.1
      · simpa using h1.2
    simp [dequeueStep, h1, hw]
  · by_cases h2 : ¬ (e.action = pys "start" ∨ e.action = pys "die")
    · have hw : workerPass mon e = false := by
        simp only [workerPass, Bool.and_eq_false_iff, Bool.or_eq_false_iff]
        right
        constructor
        · simpa using fun h => h2 (Or.inl h)
        · simpa using fun h => h2 (Or.inr h)
      simp [dequeueStep, h1, h2, hw]
    · have hw : workerPass mon e = true := by
        simp only [workerPass, Bool.and_eq_true, Bool.or_eq_true, decide_eq_true_eq]
        constructor
        · rcases not_and_or.mp h1 with h | h
          · left; exact not_not.mp h
          · right; exact not_not.mp h
        · exact not_not.mp h2
      by_cases h3 : e.action = pys "die"
      · cases hc : get_container_by_name w (eventContainerName e) with
        | none => simp [dequeueStep, h1, h2, h3, hc, hw]
        | some c =>
          cases hl : c.fetchLogs 10 with
          | ok logs => simp [dequeueStep, h1, h2, h3, hc, hl, hw]
          | error err => simp [dequeueStep, h1, h2, h3, hc, hl, hw]
      · have h4 : e.action = pys "start" := by
          rcases not_not.mp h2 with h | h
          · exact h
          · exact absurd h h3
        simp [dequeueStep, h1, h2, h3, h4, hw,
          show pys "start" ≠ pys "die" from by decide]

/-- `container_event_worker` iterated until the queue drains: since every
iteration on a non-empty queue removes exactly its head, `s.queue.length`
iterations suffice. -/
def drainB (mon : List PyStr) (w : World) : Nat → BState → BState
  | 0, s => s
  | n + 1, s => drainB mon w n (dequeueStep mon w s)

/-- All stream events observed in order by `docker_event_thread`. -/
def arriveAll (s : BState) (es : List Event) : BState := es.foldl arriveStep s

theorem drainB_sent (mon : List PyStr) (w : World) :
    ∀ (n : Nat) (s : BState), s.queue.length = n →
      (drainB mon w n s).sent = s.sent ++ s.queue.filter (workerPass mon) := by
  intro n
  induction n with
  | zero =>
    intro s hs
    have : s.queue = [] := List.length_eq_zero.mp hs
    simp [drainB, this]
  | succ m ih =>
    intro s hs
    cases hq : s.queue with
    | nil => rw [hq] at hs; simp at hs
    | cons e rest =>
      rw [hq] at hs
      have hrest : rest.length = m := by simpa using hs
      have hqueue : (dequeueStep mon w s).queue = rest := by
        rw [dequeueStep_queue, hq]; rfl
      have hsent := dequeueStep_sent mon w s e rest hq
      rw [drainB, ih (dequeueStep mon w s) (by rw [hqueue]; exact hrest),
        hqueue, hsent]
      cases hwp : workerPass mon e with
      | true => simp [List.filter_cons, hwp, List.append_assoc]
      | false => simp [List.filter_cons, hwp]

theorem arriveAll_spec :
    ∀ (es : List Event) (s : BState), s.toggle = true →
      arriveAll s es = { s with queue := s.queue ++ es.filter threadPass } := by
  intro es
  induction es with
  | nil => intro s _; simp [arriveAll]
  | cons e rest ih =>
    intro s hs
    by_cases ht : e.type = pys "container"
    · have harr : arriveStep s e = { s with queue := s.queue ++ [e] } := by
        rw [arriveStep, if_pos ⟨hs, ht⟩]
      have : arriveAll s (e :: rest) = arriveAll { s with queue := s.queue ++ [e] } rest := by
        simp [arriveAll, harr]
      rw [this, ih _ (by simp [hs])]
      simp [List.filter_cons, threadPass, ht]
    · have harr : arriveStep s e = s := by
        rw [arriveStep, if_neg (by rintro ⟨_, hc⟩; exact ht hc)]
      have : arriveAll s (e :: rest) = arriveAll s rest := by
        simp [arriveAll, harr]
      rw [this, ih _ hs]
      simp [List.filter_cons, threadPass, ht]

/-- A concrete `container`/`die` event for the container `cache`. -/
def evCacheDie : Event :=
  { type := pys "container", action := pys "die"
    actorName := some (pys "cache"), time := 1 }

/-- A concrete `container`/`die` event for the container `db`. -/
def evDbDie : Event :=
  { type := pys "container", action := pys "die"
    actorName := some (pys "db"), time := 2 }

/-- Claim C6: with notifications enabled, the events forwarded as
notifications are exactly those of type `container`, action `start` or `die`,
and subject in the monitored set (or the monitored set empty), in the order
received; in particular for the monitored set `{web, db}` and the stream
`web(start), cache(die), db(die)`, exactly the `web` and `db` events are
forwarded, in order. -/
theorem C6_forwarded_exactly_filtered (mon : List PyStr) (w : World) (es : List Event) :
    (drainB mon w (arriveAll (initB true) es).queue.length
        (arriveAll (initB true) es)).sent = es.filter (bridgePass mon) ∧
    (drainB [pys "web", pys "db"] emptyWorld
        (arriveAll (initB true) [evWebStart, evCacheDie, evDbDie]).queue.length
        (arriveAll (initB true) [evWebStart, evCacheDie, evDbDie])).sent
      = [evWebStart, evDbDie] := by
  constructor
  · rw [drainB_sent mon w _ _ rfl, arriveAll_spec es (initB true) rfl]
    simp only [initB, List.nil_append]
    rw [List.filter_filter]
    have : ∀ e, (workerPass mon e && threadPass e) = bridgePass mon e := by
      intro e
      simp only [workerPass, threadPass, bridgePass]
      cases hT : decide (e.type = pys "container") <;>
        cases hS : decide (e.action = pys "start") <;>
          cases hD : decide (e.action = pys "die") <;>
            cases hM : decide (mon = []) <;>
              cases hC : decide (eventContainerName e ∈ mon) <;>
                simp [hT, hS, hD, hM, hC]
    exact List.filter_congr (fun e _ => this e)
  · decide


/-- Claim C8: on a dequeued `die` event that passes the monitored filter, the
worker sends the notification and then, as follow-up, either the chunks of
the last-10-lines log fetch (`container.logs(tail=10)` formatted by
`format_logs(logs, lines=10)`), nothing when that fetch raises (the fault is
caught and only ends this iteration), or the `not found for logs` notice when
the container can no longer be resolved; and in every case — this one
included — a worker iteration leaves the rest of the queue to be processed
next, so the loop continues with subsequent events. -/
theorem C8_die_event_followup (mon : List PyStr) (w : World) (s : BState)
    (e : Event) (rest : List Event) (hq : s.queue = e :: rest)
    (hdie : e.action = pys "die")
    (hmon : mon = [] ∨ eventContainerName e ∈ mon) :
    (dequeueStep mon w s).queue = rest ∧
    (dequeueStep mon w s).msgs
      = s.msgs ++ notifText e ::
          (match get_container_by_name w (eventContainerName e) with
           | some c =>
             match c.fetchLogs 10 with
             | .ok logs => format_logs logs 10
             | .error _ => []
           | none => [notFoundLogsText (eventContainerName e)]) ∧
    (∀ s2 : BState, (dequeueStep mon w s2).queue = s2.queue.tail) := by
  have h1 : ¬ (mon ≠ [] ∧ eventContainerName e ∉ mon) := by
    rintro ⟨hne, hnotin⟩
    rcases hmon with h | h
    · exact hne h
    · exact hnotin h
  have h2 : ¬ ¬ (e.action = pys "start" ∨ e.action = pys "die") :=
    not_not.mpr (Or.inr hdie)
  refine ⟨?_, ?_, fun s2 => dequeueStep_queue mon w s2⟩
  · rw [dequeueStep_queue, hq]
    rfl
  · rcases s with ⟨tog, q, sent0, msgs0⟩
    simp only at hq
    subst hq
    cases hc : get_container_by_name w (eventContainerName e) with
    | none => simp [dequeueStep, h1, h2, hdie, hc]
    | some c =>
      cases hl : c.fetchLogs 10 with
      | ok logs => simp [dequeueStep, h1, h2, hdie, hc, hl]
      | error err => simp [dequeueStep, h1, h2, hdie, hc, hl]

/-- A concrete `container`/`die` event for the container `web`. -/
def evWebDie : Event :=
  { type := pys "container", action := pys "die"
    actorName := some (pys "web"), time := 3 }

/-- A world holding one `web` container whose log fetch succeeds. -/
def worldWeb : World :=
  { containers := [{ name := pys "web", status := pys "running"
                     statusAfterRestart := pys "running", created := pys ""
                     fetchLogs := fun _ => .ok (pys "l1\nl2") }] }

/-- A bridge state whose queue holds exactly the `web` die event. -/
def sWebDie : BState :=
  { toggle := true, queue := [evWebDie], sent := [], msgs := [] }

/-- Witness for C8 at a concrete state, world, and die event. -/
theorem C8_die_event_followup_witness :
    (sWebDie.queue = evWebDie :: []) ∧ (evWebDie.action = pys "die") ∧
    (([] : List PyStr) = [] ∨ eventContainerName evWebDie ∈ ([] : List PyStr)) ∧
    ((dequeueStep [] worldWeb sWebDie).queue = [] ∧
      (dequeueStep [] worldWeb sWebDie).msgs
        = sWebDie.msgs ++ notifText evWebDie ::
            (match get_container_by_name worldWeb (eventContainerName evWebDie) with
             | some c =>
               match c.fetchLogs 10 with
               | .ok logs => format_logs logs 10
               | .error _ => []
             | none => [notFoundLogsText (eventContainerName evWebDie)]) ∧
      (∀ s2 : BState, (dequeueStep [] worldWeb s2).queue = s2.queue.tail)) :=
  ⟨rfl, rfl, Or.inl rfl,
    C8_die_event_followup [] worldWeb sWebDie evWebDie [] rfl rfl (Or.inl rfl)⟩


/-! ## The suggestion engine: `difflib` (Python stdlib) as used by
`offer_suggestion` (`main.py` lines 152-164).  `get_close_matches(word,
possibilities, n=3, cutoff=0.1)` scores every possibility `x` with
`SequenceMatcher(None, x, word)` and keeps the `n` best above the cutoff.
Float ratios are modelled as exact rationals. -/

/-- The ascending list of positions of `c` in `b`: difflib's `b2j[c]`. -/
def charIndexes (c : Char) (b : PyStr) : List Nat :=
  (List.range b.length).filter (fun j => decide (b.get? j = some c))

/-- difflib autojunk: when `len(b) >= 200`, elements occurring in more than
one percent of `b` are dropped from `b2j`. -/
def isPopular (b : PyStr) (c : Char) : Bool :=
  decide (200 ≤ b.length) && decide (b.length / 100 + 1 < b.count c)

/-- difflib's `b2j.get(elt, [])` with autojunk applied (`isjunk` is `None`,
so there is no junk set). -/
def b2j (b : PyStr) (c : Char) : List Nat :=
  if isPopular b c then [] else charIndexes c b

/-- Inner loop of `find_longest_match` for one row `i`: scan the positions of
`a[i]` in `b` (ascending; `continue` below `blo`, `break` at `bhi`), build
`newj2len` and update the best block.  `j2len` is the previous row's map,
total with default 0 (`j2len.get(j-1, 0)`; a `-1` key is never present). -/
def flmInner (blo bhi i : Nat) (j2len : Nat → Nat) :
    List Nat → (Nat → Nat) → (Nat × Nat × Nat) → ((Nat → Nat) × (Nat × Nat × Nat))
  | [], acc, best => (acc, best)
  | j :: js, acc, best =>
    if j < blo then flmInner blo bhi i j2len js acc best
    else if bhi ≤ j then (acc, best)
    else
      let k := (if j = 0 then 0 else j2len (j - 1)) + 1
      let acc2 := fun j2 => if j2 = j then k else acc j2
      let best2 := if best.2.2 < k then (i + 1 - k, j + 1 - k, k) else best
      flmInner blo bhi i j2len js acc2 best2

/-- Row loop of `find_longest_match` over `i` in `[alo, ahi)`. -/
def flmRows (a b : PyStr) (blo bhi : Nat) :
    List Nat → (Nat → Nat) → (Nat × Nat × Nat) → (Nat × Nat × Nat)
  | [], _, best => best
  | i :: is, j2len, best =>
    let p := flmInner blo bhi i j2len (b2j b (a.getD i ' ')) (fun _ => 0) best
    flmRows a b blo bhi is p.1 p.2

/-- The left extension loop of `find_longest_match` ("extend the best by
non-junk elements on each end"; the junk set is empty here).  The fuel is the
initial `besti`, which bounds the number of decrements exactly. -/
def extendLeftN (a b : PyStr) (alo blo : Nat) :
    Nat → Nat → Nat → Nat → (Nat × Nat × Nat)
  | 0, bi, bj, bs => (bi, bj, bs)
  | f + 1, bi, bj, bs =>
    if alo < bi ∧ blo < bj ∧ a.get? (bi - 1) = b.get? (bj - 1) then
      extendLeftN a b alo blo f (bi - 1) (bj - 1) (bs + 1)
    else (bi, bj, bs)

/-- The right extension loop of `find_longest_match`; the fuel
`ahi - (bi + bs)` bounds the number of increments exactly. -/
def extendRightN (a b : PyStr) (ahi bhi bi bj : Nat) : Nat → Nat → Nat
  | 0, bs => bs
  | f + 1, bs =>
    if bi + bs < ahi ∧ bj + bs < bhi ∧ a.get? (bi + bs) = b.get? (bj + bs) then
      extendRightN a b ahi bhi bi bj f (bs + 1)
    else bs

/-- difflib `SequenceMatcher.find_longest_match(alo, ahi, blo, bhi)` with
`isjunk = None`: the dynamic-programming scan, then the two non-junk
extension loops (the two junk extension loops never fire with an empty junk
set and are omitted). -/
def find_longest_match (a b : PyStr) (alo ahi blo bhi : Nat) : Nat × Nat × Nat :=
  let best := flmRows a b blo bhi (List.range' alo (ahi - alo)) (fun _ => 0) (alo, blo, 0)
  let e1 := extendLeftN a b alo blo best.1 best.1 best.2.1 best.2.2
  let bs := extendRightN a b ahi bhi e1.1 e1.2.1 (ahi - (e1.1 + e1.2.2)) e1.2.2
  (e1.1, e1.2.1, bs)

/-- The total number of matched elements over `get_matching_blocks`, written
as the recursion that difflib's queue traversal performs (each window is
split at its longest match and the two sides are processed; only the sum of
the block sizes matters for `ratio`).  The fuel bounds the recursion depth:
every recursive window is strictly shorter in the `a` dimension, so
`a.length + 1` suffices for the top-level call. -/
def matchSumF (a b : PyStr) : Nat → Nat → Nat → Nat → Nat → Nat
  | 0, _, _, _, _ => 0
  | f + 1, alo, ahi, blo, bhi =>
    let t := find_longest_match a b alo ahi blo bhi
    if t.2.2 = 0 then 0
    else
      t.2.2 + (if alo < t.1 ∧ blo < t.2.1 then matchSumF a b f alo t.1 blo t.2.1 else 0)
        + (if t.1 + t.2.2 < ahi ∧ t.2.1 + t.2.2 < bhi then
            matchSumF a b f (t.1 + t.2.2) ahi (t.2.1 + t.2.2) bhi else 0)

/-- Total matches between `a` and `b` over the whole strings. -/
def matchTotal (a b : PyStr) : Nat :=
  matchSumF a b (a.length + 1) 0 a.length 0 b.length

/-- A similarity score as an exact fraction `numerator / denominator` with a
positive denominator; floats are modelled exactly, comparisons by
cross-multiplication. -/
abbrev Score := Nat × Nat

/-- difflib `SequenceMatcher.ratio()`: `2.0 * M / T`, and `1.0` when `T = 0`
(`_calculate_ratio`). -/
def ratioSc (a b : PyStr) : Score :=
  if a.length + b.length = 0 then (1, 1)
  else (2 * matchTotal a b, a.length + b.length)

/-- difflib `quick_ratio()`: the matches are the multiset intersection of the
two strings (the `fullbcount`/`avail` loop computes exactly this). -/
def quickSc (a b : PyStr) : Score :=
  if a.length + b.length = 0 then (1, 1)
  else (2 * (a.dedup.map (fun c => min (a.count c) (b.count c))).sum,
        a.length + b.length)

/-- difflib `real_quick_ratio()`: `min(la, lb)` matches. -/
def realQuickSc (a b : PyStr) : Score :=
  if a.length + b.length = 0 then (1, 1)
  else (2 * min a.length b.length, a.length + b.length)

/-- Exact comparison of two scores (`p ≤ q` as fractions). -/
def scLe (p q : Score) : Bool := decide (p.1 * q.2 ≤ q.1 * p.2)

/-- Exact strict comparison of two scores. -/
def scLt (p q : Score) : Bool := decide (p.1 * q.2 < q.1 * p.2)

/-- Exact equality of two scores as fractions. -/
def scEq (p q : Score) : Bool := decide (p.1 * q.2 = q.1 * p.2)

/-- The similarity ratio as a rational number, for specification purposes. -/
def ratioQ (a b : PyStr) : ℚ := ((ratioSc a b).1 : ℚ) / ((ratioSc a b).2 : ℚ)

/-- Python string comparison `s < t`: lexicographic by code point, a proper
prefix being smaller. -/
def pyStrLt : PyStr → PyStr → Bool
  | [], [] => false
  | [], _ :: _ => true
  | _ :: _, [] => false
  | a :: as, b :: bs => if a < b then true else if b < a then false else pyStrLt as bs

/-- Python tuple comparison on the `(ratio, word)` pairs that
`get_close_matches` sorts. -/
def tupLt (p q : Score × PyStr) : Bool :=
  scLt p.1 q.1 || (scEq p.1 q.1 && pyStrLt p.2 q.2)

/-- Insert into a descending-sorted list, after any earlier equal-or-greater
element (stability). -/
def insOne (x : Score × PyStr) : List (Score × PyStr) → List (Score × PyStr)
  | [] => [x]
  | y :: ys => if tupLt y x then x :: y :: ys else y :: insOne x ys

/-- Stable descending sort of the scored candidates: the unique stable sort,
hence equal to `heapq.nlargest(n, result)` =
`sorted(result, reverse=True)[:n]` before the truncation. -/
def sortScoresDesc (l : List (Score × PyStr)) : List (Score × PyStr) :=
  l.foldl (fun acc x => insOne x acc) []

/-- The scored candidates of `get_close_matches`: for each possibility `x`,
`SequenceMatcher` is run with `seq1 = x` and `seq2 = word`; `x` is kept when
`real_quick_ratio`, `quick_ratio` and `ratio` all reach the cutoff. -/
def gcmScored (word : PyStr) (ps : List PyStr) (cutoff : Score) :
    List (Score × PyStr) :=
  ps.filterMap (fun x =>
    if scLe cutoff (realQuickSc x word) = true ∧ scLe cutoff (quickSc x word) = true ∧
        scLe cutoff (ratioSc x word) = true
    then some (ratioSc x word, x) else none)

/-- difflib `get_close_matches(word, possibilities, n, cutoff)`. -/
def get_close_matches (word : PyStr) (ps : List PyStr) (n : Nat) (cutoff : Score) :
    List PyStr :=
  ((sortScoresDesc (gcmScored word ps cutoff)).take n).map Prod.snd


theorem mem_insOne (x : Score × PyStr) :
    ∀ (l : List (Score × PyStr)) (z : Score × PyStr),
      z ∈ insOne x l ↔ z = x ∨ z ∈ l := by
  intro l
  induction l with
  | nil => intro z; simp [insOne]
  | cons y ys ih =>
    intro z
    by_cases h : tupLt y x = true
    · rw [insOne, if_pos h]
      simp [List.mem_cons]
    · rw [insOne, if_neg h]
      simp only [List.mem_cons, ih z]
      tauto

theorem sortFold_mem :
    ∀ (l acc : List (Score × PyStr)) (z : Score × PyStr),
      z ∈ l.foldl (fun a x => insOne x a) acc ↔ z ∈ l ∨ z ∈ acc := by
  intro l
  induction l with
  | nil => intro acc z; simp
  | cons x xs ih =>
    intro acc z
    rw [List.foldl_cons, ih (insOne x acc) z, mem_insOne]
    simp only [List.mem_cons]
    tauto

theorem mem_sortScoresDesc (l : List (Score × PyStr)) (z : Score × PyStr) :
    z ∈ sortScoresDesc l ↔ z ∈ l := by
  rw [sortScoresDesc, sortFold_mem]
  simp

theorem pyStrLt_asymm : ∀ x y : PyStr, pyStrLt x y = true → pyStrLt y x = false := by
  intro x
  induction x with
  | nil =>
    intro y h
    cases y with
    | nil => simp [pyStrLt] at h
    | cons b bs => simp [pyStrLt]
  | cons a as ih =>
    intro y h
    cases y with
    | nil => simp [pyStrLt] at h
    | cons b bs =>
      rw [pyStrLt] at h ⊢
      by_cases hab : a < b
      · have hba : ¬ b < a := lt_asymm hab
        simp [hab, hba]
      · by_cases hba : b < a
        · simp [hab, hba] at h
        · rw [if_neg hab, if_neg hba] at h
          rw [if_neg hba, if_neg hab]
          exact ih bs h

theorem pyStrLt_trans :
    ∀ x y z : PyStr, pyStrLt x y = true → pyStrLt y z = true → pyStrLt x z = true := by
  intro x
  induction x with
  | nil =>
    intro y z hxy hyz
    cases z with
    | cons c cs => rfl
    | nil =>
      cases y with
      | nil => simp [pyStrLt] at hxy
      | cons b bs => simp [pyStrLt] at hyz
  | cons a as ih =>
    intro y z hxy hyz
    cases y with
    | nil => simp [pyStrLt] at hxy
    | cons b bs =>
      cases z with
      | nil => simp [pyStrLt] at hyz
      | cons c cs =>
        rw [pyStrLt] at hxy hyz ⊢
        by_cases hab : a < b
        · by_cases hbc : b < c
          · simp [lt_trans hab hbc]
          · by_cases hcb : c < b
            · simp [hbc, hcb] at hyz
            · have hbc2 : b = c := le_antisymm (not_lt.mp hcb) (not_lt.mp hbc)
              subst hbc2
              simp [hab]
        · by_cases hba : b < a
          · simp [hab, hba] at hxy
          · have hab2 : a = b := le_antisymm (not_lt.mp hba) (not_lt.mp hab)
            subst hab2
            simp only [lt_irrefl, if_false] at hxy
            by_cases hbc : a < c
            · simp [hbc]
            · by_cases hcb : c < a
              · simp [hbc, hcb] at hyz
              · rw [if_neg hbc, if_neg hcb] at hyz
                rw [if_neg hbc, if_neg hcb]
                exact ih bs cs hxy hyz

theorem tupLt_asymm (p q : Score × PyStr) (h : tupLt p q = true) :
    tupLt q p = false := by
  cases hqp : tupLt q p with
  | false => rfl
  | true =>
    exfalso
    simp only [tupLt, scLt, scEq, Bool.or_eq_true, Bool.and_eq_true,
      decide_eq_true_eq] at h hqp
    rcases h with h1 | ⟨h1, h2⟩ <;> rcases hqp with g1 | ⟨g1, g2⟩
    · exact absurd g1 (lt_asymm h1)
    · rw [g1] at h1; exact lt_irrefl _ h1
    · rw [h1] at g1; exact lt_irrefl _ g1
    · have := pyStrLt_asymm _ _ h2
      rw [g2] at this
      exact absurd this (by simp)


theorem tupLt_trans (p q r : Score × PyStr)
    (hp : 0 < p.1.2) (hq : 0 < q.1.2) (hr : 0 < r.1.2)
    (h1 : tupLt p q = true) (h2 : tupLt q r = true) : tupLt p r = true := by
  simp only [tupLt, scLt, scEq, Bool.or_eq_true, Bool.and_eq_true,
    decide_eq_true_eq] at h1 h2 ⊢
  rcases h1 with h1 | ⟨h1e, h1s⟩ <;> rcases h2 with h2 | ⟨h2e, h2s⟩
  · left
    have hB : 0 < p.1.2 := hp
    have c1 : p.1.1 * r.1.2 * q.1.2 = p.1.1 * q.1.2 * r.1.2 := by ring
    have c2 : p.1.1 * q.1.2 * r.1.2 ≤ q.1.1 * p.1.2 * r.1.2 :=
      Nat.mul_le_mul_right _ (le_of_lt h1)
    have c3 : q.1.1 * p.1.2 * r.1.2 = q.1.1 * r.1.2 * p.1.2 := by ring
    have c4 : q.1.1 * r.1.2 * p.1.2 < r.1.1 * q.1.2 * p.1.2 :=
      (mul_lt_mul_right hB).mpr h2
    have c5 : r.1.1 * q.1.2 * p.1.2 = r.1.1 * p.1.2 * q.1.2 := by ring
    have : p.1.1 * r.1.2 * q.1.2 < r.1.1 * p.1.2 * q.1.2 := by
      rw [c1, c5.symm]
      exact lt_of_le_of_lt (c3 ▸ c2) c4
    exact (mul_lt_mul_right hq).mp this
  · left
    have c1 : p.1.1 * r.1.2 * q.1.2 = p.1.1 * q.1.2 * r.1.2 := by ring
    have c2 : p.1.1 * q.1.2 * r.1.2 < q.1.1 * p.1.2 * r.1.2 :=
      (mul_lt_mul_right hr).mpr h1
    have c3 : q.1.1 * p.1.2 * r.1.2 = q.1.1 * r.1.2 * p.1.2 := by ring
    have c4 : q.1.1 * r.1.2 * p.1.2 = r.1.1 * q.1.2 * p.1.2 := by
      rw [h2e]
    have c5 : r.1.1 * q.1.2 * p.1.2 = r.1.1 * p.1.2 * q.1.2 := by ring
    have : p.1.1 * r.1.2 * q.1.2 < r.1.1 * p.1.2 * q.1.2 := by
      rw [c1, c5.symm, c4.symm, c3.symm]
      exact c2
    exact (mul_lt_mul_right hq).mp this
  · left
    have c1 : p.1.1 * r.1.2 * q.1.2 = p.1.1 * q.1.2 * r.1.2 := by ring
    have c2 : p.1.1 * q.1.2 * r.1.2 = q.1.1 * p.1.2 * r.1.2 := by rw [h1e]
    have c3 : q.1.1 * p.1.2 * r.1.2 = q.1.1 * r.1.2 * p.1.2 := by ring
    have c4 : q.1.1 * r.1.2 * p.1.2 < r.1.1 * q.1.2 * p.1.2 :=
      (mul_lt_mul_right hp).mpr h2
    have c5 : r.1.1 * q.1.2 * p.1.2 = r.1.1 * p.1.2 * q.1.2 := by ring
    have : p.1.1 * r.1.2 * q.1.2 < r.1.1 * p.1.2 * q.1.2 := by
      rw [c1, c2, c3, c5.symm]
      exact c4
    exact (mul_lt_mul_right hq).mp this
  · right
    constructor
    · have c1 : p.1.1 * r.1.2 * q.1.2 = p.1.1 * q.1.2 * r.1.2 := by ring
      have c2 : p.1.1 * q.1.2 * r.1.2 = q.1.1 * p.1.2 * r.1.2 := by rw [h1e]
      have c3 : q.1.1 * p.1.2 * r.1.2 = q.1.1 * r.1.2 * p.1.2 := by ring
      have c4 : q.1.1 * r.1.2 * p.1.2 = r.1.1 * q.1.2 * p.1.2 := by rw [h2e]
      have c5 : r.1.1 * q.1.2 * p.1.2 = r.1.1 * p.1.2 * q.1.2 := by ring
      have : p.1.1 * r.1.2 * q.1.2 = r.1.1 * p.1.2 * q.1.2 := by
        rw [c1, c2, c3, c4, c5]
      exact Nat.eq_of_mul_eq_mul_right hq this
    · exact pyStrLt_trans _ _ _ h1s h2s

theorem insOne_pairwise (x : Score × PyStr) (l : List (Score × PyStr))
    (hx : 0 < x.1.2) (hl : ∀ p ∈ l, 0 < p.1.2)
    (hpw : l.Pairwise (fun p q => tupLt p q = false)) :
    (insOne x l).Pairwise (fun p q => tupLt p q = false) := by
  induction l with
  | nil => simp [insOne]
  | cons y ys ih =>
    rcases List.pairwise_cons.mp hpw with ⟨hyys, hys⟩
    rw [insOne]
    by_cases h : tupLt y x = true
    · rw [if_pos h]
      refine List.Pairwise.cons ?_ hpw
      intro z hz
      rcases List.mem_cons.mp hz with rfl | hzys
      · exact tupLt_asymm _ _ h
      · cases hxz : tupLt x z with
        | false => rfl
        | true =>
          exfalso
          have hyz := tupLt_trans y x z (hl y (List.mem_cons_self y ys)) hx
            (hl z (List.mem_cons_of_mem _ hzys)) h hxz
          rw [hyys z hzys] at hyz
          exact absurd hyz (by simp)
    · rw [if_neg h]
      refine List.Pairwise.cons ?_
        (ih (fun p hp2 => hl p (List.mem_cons_of_mem _ hp2)) hys)
      intro z hz
      rcases (mem_insOne x ys z).mp hz with rfl | hzys
      · cases hb : tupLt y z with
        | false => rfl
        | true => exact absurd hb h
      · exact hyys z hzys

theorem sortFold_pairwise :
    ∀ (l acc : List (Score × PyStr)),
      (∀ p ∈ l, 0 < p.1.2) → (∀ p ∈ acc, 0 < p.1.2) →
      acc.Pairwise (fun p q => tupLt p q = false) →
      (l.foldl (fun a x => insOne x a) acc).Pairwise (fun p q => tupLt p q = false) := by
  intro l
  induction l with
  | nil => intro acc _ _ h3; exact h3
  | cons x xs ih =>
    intro acc hlpos haccpos haccpw
    have hx : 0 < x.1.2 := hlpos x (List.mem_cons_self x xs)
    have hins : ∀ p ∈ insOne x acc, 0 < p.1.2 := by
      intro p hp
      rcases (mem_insOne x acc p).mp hp with rfl | hpacc
      · exact hx
      · exact haccpos p hpacc
    exact ih (insOne x acc) (fun p hp => hlpos p (List.mem_cons_of_mem _ hp)) hins
      (insOne_pairwise x acc hx haccpos haccpw)

theorem sortScoresDesc_pairwise (l : List (Score × PyStr))
    (hl : ∀ p ∈ l, 0 < p.1.2) :
    (sortScoresDesc l).Pairwise (fun p q => tupLt p q = false) :=
  sortFold_pairwise l [] hl (by simp) (by simp)


theorem ratioSc_den_pos (a b : PyStr) : 0 < (ratioSc a b).2 := by
  rw [ratioSc]
  split
  · exact Nat.one_pos
  · rename_i h
    show 0 < a.length + b.length
    omega

theorem mem_gcmScored (word : PyStr) (ps : List PyStr) (cutoff : Score)
    (p : Score × PyStr) (hp : p ∈ gcmScored word ps cutoff) :
    p.1 = ratioSc p.2 word ∧ p.2 ∈ ps ∧ scLe cutoff (ratioSc p.2 word) = true := by
  obtain ⟨x, hx, hfx⟩ := List.mem_filterMap.mp hp
  by_cases hcond : scLe cutoff (realQuickSc x word) = true ∧
      scLe cutoff (quickSc x word) = true ∧ scLe cutoff (ratioSc x word) = true
  · rw [if_pos hcond] at hfx
    cases hfx
    exact ⟨rfl, hx, hcond.2.2⟩
  · rw [if_neg hcond] at hfx
    cases hfx

theorem scLe_iff (p q : Score) (hp : 0 < p.2) (hq : 0 < q.2) :
    scLe p q = true ↔ (p.1 : ℚ) / (p.2 : ℚ) ≤ (q.1 : ℚ) / (q.2 : ℚ) := by
  rw [scLe, decide_eq_true_eq,
    div_le_div_iff₀ (by exact_mod_cast hp) (by exact_mod_cast hq)]
  constructor
  · intro h; exact_mod_cast h
  · intro h; exact_mod_cast h

theorem tupLt_false_ratio_le (p q : Score × PyStr)
    (hp : 0 < p.1.2) (hq : 0 < q.1.2) (h : tupLt p q = false) :
    (q.1.1 : ℚ) / (q.1.2 : ℚ) ≤ (p.1.1 : ℚ) / (p.1.2 : ℚ) := by
  have hlt : scLt p.1 q.1 = false := by
    cases hb : scLt p.1 q.1 with
    | false => rfl
    | true =>
      rw [tupLt, hb] at h
      simp at h
  rw [scLt] at hlt
  have hle : q.1.1 * p.1.2 ≤ p.1.1 * q.1.2 := by
    have := of_decide_eq_false hlt
    omega
  rw [div_le_div_iff₀ (by exact_mod_cast hq) (by exact_mod_cast hp)]
  exact_mod_cast hle

/-- The candidate names of `offer_suggestion` (`main.py` lines 155-160): all
containers, filtered to the monitored ones when a monitored set is
configured, then their names. -/
def knownNames (w : World) (cfg : Config) : List PyStr :=
  (if cfg.monitored ≠ [] then
      w.containers.filter (fun c => decide (c.name ∈ cfg.monitored))
    else w.containers).map DContainer.name

/-- `offer_suggestion(container_name)` (`main.py` lines 152-164):
`get_close_matches(container_name, container_names, n=3, cutoff=0.1)`. -/
def offer_suggestion (w : World) (cfg : Config) (container_name : PyStr) : List PyStr :=
  get_close_matches container_name (knownNames w cfg) 3 (1, 10)


/-- A container record used in concrete suggestion examples. -/
def mkPlainContainer (n : String) : DContainer :=
  { name := pys n, status := pys "running", statusAfterRestart := pys "running"
    created := [], fetchLogs := fun _ => .ok [] }

/-- A world with the containers `web`, `worker` and `db`. -/
def worldSug : World :=
  { containers := [mkPlainContainer "web", mkPlainContainer "worker", mkPlainContainer "db"] }

/-- The all-open configuration: no authorized users configured, no channel
restriction, no monitored set. -/
def cfgOpen : Config := { authorizedEnv := [], channelId := 0, monitoredEnv := [] }

/-- Claim C9: `offer_suggestion` returns at most 3 of the known container
names, each with similarity ratio at least the fixed low cutoff 0.1, ranked
best match first (non-increasing ratio); over the known names `web`,
`worker`, `db`, the query `wbe` has top match `web`; and when no candidate
clears the cutoff — as for the query `zzz` — the result is empty. -/
theorem C9_offer_suggestion_ranked (w : World) (cfg : Config) (q : PyStr) :
    (offer_suggestion w cfg q).length ≤ 3 ∧
    (∀ x ∈ offer_suggestion w cfg q,
        x ∈ knownNames w cfg ∧ (1 / 10 : ℚ) ≤ ratioQ x q) ∧
    (offer_suggestion w cfg q).Pairwise (fun x y => ratioQ y q ≤ ratioQ x q) ∧
    ((∀ x ∈ knownNames w cfg, ratioQ x q < 1 / 10) → offer_suggestion w cfg q = []) ∧
    (offer_suggestion worldSug cfgOpen (pys "wbe")).head? = some (pys "web") ∧
    offer_suggestion worldSug cfgOpen (pys "zzz") = [] := by
  have h110 : ((1 : ℕ) : ℚ) / ((10 : ℕ) : ℚ) = 1 / 10 := by norm_num
  have hpos : ∀ p ∈ gcmScored q (knownNames w cfg) (1, 10), 0 < p.1.2 := by
    intro p hp
    rw [(mem_gcmScored _ _ _ p hp).1]
    exact ratioSc_den_pos _ _
  refine ⟨?_, ?_, ?_, ?_, by decide, by decide⟩
  · rw [offer_suggestion, get_close_matches, List.length_map, List.length_take]
    exact min_le_left _ _
  · intro x hx
    rw [offer_suggestion, get_close_matches] at hx
    obtain ⟨p, hpTake, hpx⟩ := List.mem_map.mp hx
    have hpScored := (mem_sortScoresDesc _ p).mp (List.mem_of_mem_take hpTake)
    obtain ⟨h1, h2, h3⟩ := mem_gcmScored _ _ _ p hpScored
    subst hpx
    refine ⟨h2, ?_⟩
    have hq10 := (scLe_iff (1, 10) (ratioSc p.2 q) (by norm_num)
      (ratioSc_den_pos _ _)).mp h3
    rw [ratioQ]
    exact h110 ▸ hq10
  · rw [offer_suggestion, get_close_matches]
    rw [List.pairwise_map]
    have hsorted := sortScoresDesc_pairwise _ hpos
    have htake := hsorted.sublist (List.take_sublist 3 _)
    refine htake.imp_of_mem ?_
    intro a b ha hb hab
    have haS := (mem_sortScoresDesc _ a).mp (List.mem_of_mem_take ha)
    have hbS := (mem_sortScoresDesc _ b).mp (List.mem_of_mem_take hb)
    obtain ⟨h1a, _, _⟩ := mem_gcmScored _ _ _ a haS
    obtain ⟨h1b, _, _⟩ := mem_gcmScored _ _ _ b hbS
    have hle := tupLt_false_ratio_le a b (hpos a haS) (hpos b hbS) hab
    rw [ratioQ, ratioQ, ← h1a, ← h1b]
    exact hle
  · intro hbelow
    have hscored : gcmScored q (knownNames w cfg) (1, 10) = [] := by
      rw [gcmScored, List.filterMap_eq_nil_iff]
      intro x hx
      rw [if_neg]
      rintro ⟨-, -, h3⟩
      have hq10 := (scLe_iff (1, 10) (ratioSc x q) (by norm_num)
        (ratioSc_den_pos _ _)).mp h3
      have hle : (1 / 10 : ℚ) ≤ ratioQ x q := by
        rw [ratioQ]
        exact h110 ▸ hq10
      exact absurd hle (not_le.mpr (hbelow x hx))
    rw [offer_suggestion, get_close_matches, hscored]
    rfl

/-- Witness for C9 at the concrete world, configuration, and query. -/
theorem C9_offer_suggestion_ranked_witness :
    (offer_suggestion worldSug cfgOpen (pys "wbe")).length ≤ 3 ∧
    (∀ x ∈ offer_suggestion worldSug cfgOpen (pys "wbe"),
        x ∈ knownNames worldSug cfgOpen ∧ (1 / 10 : ℚ) ≤ ratioQ x (pys "wbe")) ∧
    (offer_suggestion worldSug cfgOpen (pys "wbe")).Pairwise
      (fun x y => ratioQ y (pys "wbe") ≤ ratioQ x (pys "wbe")) ∧
    ((∀ x ∈ knownNames worldSug cfgOpen, ratioQ x (pys "wbe") < 1 / 10) →
        offer_suggestion worldSug cfgOpen (pys "wbe") = []) ∧
    (offer_suggestion worldSug cfgOpen (pys "wbe")).head? = some (pys "web") ∧
    offer_suggestion worldSug cfgOpen (pys "zzz") = [] :=
  C9_offer_suggestion_ranked worldSug cfgOpen (pys "wbe")


/-! ## The command dispatcher (`main.py` lines 144-150 and 184-379) -/

/-- The caller context of a command: author id and origin channel id. -/
structure Ctx where
  authorId : Nat
  channelId : Nat

/-- `check_authorizations(ctx, container_name=None)` (`main.py` lines
144-150): raise (`Except.error` with the message) on an unauthorized caller,
then on a wrong channel when a channel is configured, then on an unmonitored
container name (when the name is truthy and a monitored set is configured). -/
def check_authorizations (cfg : Config) (ctx : Ctx) (container_name : Option PyStr) :
    Except PyStr Unit :=
  if is_authorized cfg ctx.authorId = false then
    .error (pys "You are not authorized to use this command.")
  else if ctx.channelId ≠ cfg.channelId ∧ cfg.channelId ≠ 0 then
    .error (pys "This command cannot be used in this channel.")
  else
    match container_name with
    | some n =>
      if n ≠ [] ∧ cfg.monitored ≠ [] ∧ n ∉ cfg.monitored then
        .error ((pys "Container '" ++ n) ++ pys "' is not monitored by this bot.")
      else .ok ()
    | none => .ok ()

/-- Runtime interactions a command handler can perform. -/
inductive Eff where
  | lookup (name : PyStr)
  | listContainers
  | fetchLogs (name : PyStr) (tail : Nat)
  | restart (name : PyStr)
  | reload (name : PyStr)
  | sleep (seconds : Nat)
deriving DecidableEq

/-- A message a handler sends back: a reply/send, an edit of the loading
message, or an embed with a title and fields. -/
inductive Reply where
  | msg (text : PyStr)
  | edit (text : PyStr)
  | embedR (title : PyStr) (fields : List (PyStr × PyStr))
deriving DecidableEq

/-- The observable outcome of one command invocation: the messages sent, the
runtime interactions performed, and the notification toggle afterwards. -/
structure HRes where
  replies : List Reply
  effects : List Eff
  toggle : Bool
deriving DecidableEq

/-- The `❌ Error: {e}` reply every handler sends from its `except` clause. -/
def errReply (e : PyStr) : Reply := .msg (pys "❌ Error: " ++ e)

/-- The outcome of a denied command: the denial reply alone, no runtime
effect, toggle unchanged. -/
def deniedRes (toggle : Bool) : HRes :=
  { replies := [errReply (pys "You are not authorized to use this command.")]
    effects := [], toggle := toggle }

/-- `$toggle_notifications` (`main.py` lines 184-203). -/
def toggle_notifications (cfg : Config) (ctx : Ctx) (toggle : Bool) : HRes :=
  match check_authorizations cfg ctx none with
  | .error e => { replies := [errReply e], effects := [], toggle := toggle }
  | .ok _ =>
    let newToggle := !toggle
    { replies := [.msg ((pys "🔔 Container event notifications are now "
        ++ (if newToggle then pys "enabled" else pys "disabled")) ++ pys ".")]
      effects := [], toggle := newToggle }

/-- The not-found reply plus the suggestion hint shared by `logs`, `restart`
and `status` (`main.py` lines 216-221, 253-258, 292-297); listing the
containers inside `offer_suggestion` is the `listContainers` effect recorded
by the callers. -/
def notFoundReplies (w : World) (cfg : Config) (container_name : PyStr) : List Reply :=
  .msg ((pys "❌ Container '" ++ container_name) ++ pys "' not found.") ::
    (match offer_suggestion w cfg container_name with
     | [] => []
     | s :: _ => [.msg ((pys "Did you mean: " ++ s) ++ pys "?")])

/-- `$logs <container_name> [lines]` (`main.py` lines 205-239); the command
framework supplies `lines = 50` by default. -/
def get_logs (cfg : Config) (ctx : Ctx) (w : World)
    (container_name : PyStr) (lines : Nat) (toggle : Bool) : HRes :=
  match check_authorizations cfg ctx (some container_name) with
  | .error e => { replies := [errReply e], effects := [], toggle := toggle }
  | .ok _ =>
    match get_container_by_name w container_name with
    | none =>
      { replies := notFoundReplies w cfg container_name
        effects := [.lookup container_name, .listContainers], toggle := toggle }
    | some c =>
      let loading : Reply :=
        .msg ((pys "📋 Retrieving logs for '" ++ container_name) ++ pys "'...")
      match c.fetchLogs lines with
      | .error e =>
        { replies := [loading, errReply e]
          effects := [.lookup container_name, .fetchLogs container_name lines]
          toggle := toggle }
      | .ok logs =>
        { replies := loading ::
            .edit ((((pys "📋 **'" ++ container_name) ++ pys "' logs (last ")
              ++ pys (toString lines)) ++ pys " lines):**") ::
            (format_logs logs lines).map Reply.msg
          effects := [.lookup container_name, .fetchLogs container_name lines]
          toggle := toggle }

/-- `$restart <container_name>` (`main.py` lines 241-278). -/
def restart_container (cfg : Config) (ctx : Ctx) (w : World)
    (container_name : PyStr) (toggle : Bool) : HRes :=
  match check_authorizations cfg ctx (some container_name) with
  | .error e => { replies := [errReply e], effects := [], toggle := toggle }
  | .ok _ =>
    match get_container_by_name w container_name with
    | none =>
      { replies := notFoundReplies w cfg container_name
        effects := [.lookup container_name, .listContainers], toggle := toggle }
    | some c =>
      { replies := [.msg ((pys "🔄 Restarting container '" ++ container_name) ++ pys "'..."),
          if c.statusAfterRestart = pys "running" then
            .edit ((pys "✅ Container '" ++ container_name) ++ pys "' successfully restarted!")
          else
            .edit ((((pys "⚠️ Container '" ++ container_name) ++ pys "' status: ")
              ++ c.statusAfterRestart))]
        effects := [.lookup container_name, .restart container_name, .sleep 3,
          .reload container_name]
        toggle := toggle }

/-- `"\n".join`. -/
def pyJoinNL (ls : List PyStr) : PyStr := (ls.intersperse (pys "\n")).flatten

/-- The all-containers embed of `$status` (`main.py` lines 331-350):
partition into running and stopped, one field per non-empty group. -/
def statusEmbed (containers : List DContainer) (effs : List Eff) (toggle : Bool) : HRes :=
  let running := containers.filterMap (fun c =>
    if c.status = pys "running" then some (pys "🟢 " ++ c.name) else none)
  let stopped := containers.filterMap (fun c =>
    if c.status = pys "running" then none
    else some ((((pys "🔴 " ++ c.name) ++ pys " (") ++ c.status) ++ pys ")"))
  { replies := [.embedR (pys "Status Container")
      ((if running ≠ [] then [(pys "Running", pyJoinNL running)] else []) ++
        (if stopped ≠ [] then [(pys "Stopped", pyJoinNL stopped)] else []))]
    effects := effs, toggle := toggle }

/-- `$status [container_name]` (`main.py` lines 280-354).  A given name that
is falsy (empty) takes the all-containers branch, as in Python. -/
def container_status (cfg : Config) (ctx : Ctx) (w : World)
    (container_name : Option PyStr) (toggle : Bool) : HRes :=
  match check_authorizations cfg ctx container_name with
  | .error e => { replies := [errReply e], effects := [], toggle := toggle }
  | .ok _ =>
    let allStatus : HRes :=
      if cfg.monitored ≠ [] then
        let found := cfg.monitored.filterMap (fun n => get_container_by_name w n)
        let effs := (cfg.monitored.map (fun n =>
          Eff.lookup n :: (match get_container_by_name w n with
            | some _ => [Eff.reload n]
            | none => []))).flatten
        if found.isEmpty then
          { replies := [.msg (pys "📋 No container found.")]
            effects := effs, toggle := toggle }
        else statusEmbed found effs toggle
      else
        if w.containers.isEmpty then
          { replies := [.msg (pys "📋 No container found.")]
            effects := [.listContainers], toggle := toggle }
        else statusEmbed w.containers [.listContainers] toggle
    match container_name with
    | some n =>
      if n = [] then allStatus
      else
        match get_container_by_name w n with
        | none =>
          { replies := notFoundReplies w cfg n
            effects := [.lookup n, .listContainers], toggle := toggle }
        | some c =>
          { replies := [.embedR (pys "Status Container: " ++ n)
              [(pys "Status", c.status), (pys "Created", c.created.take 19)]]
            effects := [.lookup n, .reload n], toggle := toggle }
    | none => allStatus

/-- `$help` (`main.py` lines 356-379). -/
def help_command (cfg : Config) (ctx : Ctx) (toggle : Bool) : HRes :=
  match check_authorizations cfg ctx none with
  | .error e => { replies := [errReply e], effects := [], toggle := toggle }
  | .ok _ =>
    { replies := [.msg (pys "🤖 **Container Monitor Bot Help**\n\nAvailable commands:\n`$status [container_name]` - Show status of all containers or a specific one.\n`$logs <container_name> [lines_count]` - Get logs from a container (default: 50 lines).\n`$restart <container_name>` - Restart a specific container.\n`$toggle_notifications` - Enable/disable container event notifications.\n`$help` - Show this help message.")]
      effects := [], toggle := toggle }

/-- Claim C7: a caller whose id is not in a non-empty authorized-user list is
rejected by every command — `status`, `logs`, `restart`,
`toggle_notifications`, `help` — with the denial reply and no runtime side
effect: no lookup, log fetch, restart, listing or reload happens and the
notification toggle is unchanged, because `check_authorizations` raises
before any runtime interaction. -/
theorem C7_unauthorized_denied (cfg : Config) (ctx : Ctx) (w : World)
    (name : PyStr) (nameOpt : Option PyStr) (lines : Nat) (toggle : Bool)
    (hne : cfg.authorizedUsers ≠ [])
    (hnotin : pys (toString ctx.authorId) ∉ cfg.authorizedUsers) :
    toggle_notifications cfg ctx toggle = deniedRes toggle ∧
    get_logs cfg ctx w name lines toggle = deniedRes toggle ∧
    restart_container cfg ctx w name toggle = deniedRes toggle ∧
    container_status cfg ctx w nameOpt toggle = deniedRes toggle ∧
    help_command cfg ctx toggle = deniedRes toggle := by
  have hauth : is_authorized cfg ctx.authorId = false := by
    rw [is_authorized, Bool.or_eq_false_iff]
    constructor
    · cases hb : cfg.authorizedUsers.contains (pys (toString ctx.authorId)) with
      | false => rfl
      | true => exact absurd (by simpa using hb) hnotin
    · cases hi : cfg.authorizedUsers.isEmpty with
      | false => rfl
      | true => exact absurd (List.isEmpty_iff.mp hi) hne
  have hcheck : ∀ cn, check_authorizations cfg ctx cn
      = .error (pys "You are not authorized to use this command.") := by
    intro cn
    rw [check_authorizations.eq_def, if_pos hauth]
  refine ⟨?_, ?_, ?_, ?_, ?_⟩
  · simp [toggle_notifications, hcheck, deniedRes]
  · simp [get_logs, hcheck, deniedRes]
  · simp [restart_container, hcheck, deniedRes]
  · simp [container_status, hcheck, deniedRes]
  · simp [help_command, hcheck, deniedRes]

/-- A configuration with the authorized-user list `111,222`. -/
def cfgAuthW : Config :=
  { authorizedEnv := pys "111,222", channelId := 0, monitoredEnv := [] }

/-- The caller `333`, not among the authorized users. -/
def ctxW : Ctx := { authorId := 333, channelId := 5 }

/-- Witness for C7 at a concrete configuration, caller and world. -/
theorem C7_unauthorized_denied_witness :
    (cfgAuthW.authorizedUsers ≠ []) ∧
    (pys (toString ctxW.authorId) ∉ cfgAuthW.authorizedUsers) ∧
    (toggle_notifications cfgAuthW ctxW true = deniedRes true ∧
      get_logs cfgAuthW ctxW worldSug (pys "web") 50 true = deniedRes true ∧
      restart_container cfgAuthW ctxW worldSug (pys "web") true = deniedRes true ∧
      container_status cfgAuthW ctxW worldSug (some (pys "web")) true = deniedRes true ∧
      help_command cfgAuthW ctxW true = deniedRes true) :=
  ⟨by decide, by decide,
    C7_unauthorized_denied cfgAuthW ctxW worldSug (pys "web") (some (pys "web")) 50 true
      (by decide) (by decide)⟩

end ContainerBot
